import Mathlib

/-!
Verification development for the screenshot-renderer content-intelligence core.

The TypeScript source is shallowly embedded:
* float arithmetic on embedding vectors is idealised as exact rational
  arithmetic (`ℚ`);
* a cosine-similarity value `dot / (sqrt normA * sqrt normB)` is kept in the
  exact symbolic form `ScoreVal` (numerator and squared denominator), with
  real value `num / Real.sqrt den2`; the IEEE `NaN` produced by the unguarded
  `0 / 0` division is `Option.none`;
* remote calls (OpenAI embedding endpoint, BAML inference) are oracle
  parameters of type `Except String _` (or functions of the request text);
* `fs` state (the persisted embedding index file) is an explicit field of
  `StoreState`, and every method is a state transformer;
* JavaScript `Map` objects are insertion-ordered association lists;
* `Array.prototype.sort` with the comparator `(a, b) => b.score - a.score` is
  `List.mergeSort` (stable, as required by ECMAScript) with the comparator
  `jsCompareKeep`; per the ECMAScript `SortCompare` step, a `NaN` comparator
  result is treated as `+0`, i.e. the two elements compare as equal.
-/

namespace ScreenshotRenderer

/-! ## Exact similarity scores -/

/-- Accumulator `dotProduct` of `cosineSimilarity`: sum of pairwise products. -/
def dotProd (a b : List ℚ) : ℚ :=
  (List.zipWith (fun x y => x * y) a b).sum

/-- Accumulators `normA` / `normB` of `cosineSimilarity`: sum of squares. -/
def sumSq (a : List ℚ) : ℚ :=
  (a.map (fun x => x * x)).sum

/-- Exact form of a finite cosine-similarity value: real value
`num / Real.sqrt den2` where `den2` is the product `normA * normB` of the two
squared norms (so the code's denominator `sqrt normA * sqrt normB` equals
`Real.sqrt den2`). -/
structure ScoreVal where
  num : ℚ
  den2 : ℚ
deriving DecidableEq, Repr

/-- A JavaScript similarity score: `none` is `NaN` (produced by `0 / 0`). -/
abbrev JsScore := Option ScoreVal

/-- Rational key whose order coincides with the real order of score values
(for positive `den2`): `sign num * num ^ 2 / den2`, i.e. the monotone image
`x ↦ sign x * x ^ 2` of `num / sqrt den2`. -/
def scoreKey (s : ScoreVal) : ℚ :=
  if s.num < 0 then -(s.num ^ 2 / s.den2) else s.num ^ 2 / s.den2

/-- Decidable comparison of two finite scores; for well-formed scores
(`0 < den2`) it agrees with the real `≤` on their values
(`scoreKey_le_iff_real`). -/
def scoreLE (x y : ScoreVal) : Bool :=
  decide (scoreKey x ≤ scoreKey y)

/-- Real value of a finite score. -/
noncomputable def scoreValR (s : ScoreVal) : ℝ :=
  (s.num : ℝ) / Real.sqrt (s.den2 : ℝ)

/-- Claim-level descending comparison of two optional scores: both are real
(non-`NaN`) and the left value is at least the right one.  A `NaN` score is
never `≥` anything, as in IEEE arithmetic. -/
def scoreGe (a b : JsScore) : Prop :=
  ∃ x y, a = some x ∧ b = some y ∧ scoreValR y ≤ scoreValR x

/-! ## cosineSimilarity -/

/-- Model of `OpenAIEmbeddingService.cosineSimilarity`.  Unequal lengths throw;
otherwise the code returns `dotProduct / (Math.sqrt normA * Math.sqrt normB)`.
When `normA * normB = 0` the denominator is `0`; then the numerator is also `0`
(a zero-norm rational vector is the zero vector, `dotProd_eq_zero_left` /
`dotProd_eq_zero_right`), and IEEE `0 / 0` is `NaN`, modelled by `none`. -/
def cosineSimilarity (a b : List ℚ) : Except String JsScore :=
  if a.length ≠ b.length then
    .error "Vectors must have the same length"
  else
    let dot := dotProd a b
    let nA := sumSq a
    let nB := sumSq b
    if nA * nB = 0 then .ok none else .ok (some ⟨dot, nA * nB⟩)

/-! ## Embedding store data model -/

/-- The `'image' | 'text'` discriminator of `IndexedItem.type`. -/
inductive ItemType where
  | image
  | text
deriving DecidableEq, Repr

/-- Optional metadata payload handed to `addImage` (the fields that
`generateComprehensiveDescription` reads). -/
structure ItemMetadata where
  comprehensive_description : Option String
  ocr_text : Option String
  ai_title : Option String
  ai_description : Option String
  keywords : Option (List String)
deriving DecidableEq, Repr

/-- Model of the `IndexedItem` interface. -/
structure IndexedItem where
  id : String
  path : String
  type : ItemType
  metadata : Option ItemMetadata
  embedding : Option (List ℚ)
  content : Option String
deriving DecidableEq, Repr

/-- Model of the `SearchResult` interface returned by `searchByText`. -/
structure SearchResult where
  id : String
  score : JsScore
  item : IndexedItem
deriving DecidableEq, Repr

/-! ## JavaScript `Map` as an insertion-ordered association list -/

section JsMap

variable {β : Type}

/-- `Map.prototype.has`. -/
def jsMapHas (m : List (String × β)) (k : String) : Bool :=
  m.any (fun p => p.1 = k)

/-- `Map.prototype.set`: overwrite in place if the key exists (keeping its
insertion position), otherwise append. -/
def jsMapSet (m : List (String × β)) (k : String) (v : β) : List (String × β) :=
  if jsMapHas m k then
    m.map (fun p => if p.1 = k then (k, v) else p)
  else
    m ++ [(k, v)]

/-- `Map.prototype.delete`. -/
def jsMapDelete (m : List (String × β)) (k : String) : List (String × β) :=
  m.filter (fun p => decide (p.1 ≠ k))

end JsMap

/-- The in-memory record map of `OpenAIEmbeddingService` (`this.items`). -/
abbrev EmbMap := List (String × IndexedItem)

/-- The durable JSON document `{items, lastUpdated}` written by `save`. -/
structure StoreFile where
  items : EmbMap
  lastUpdated : ℕ
deriving DecidableEq, Repr

/-- A store instance together with its durable file (`none` = no file yet). -/
structure StoreState where
  items : EmbMap
  file : Option StoreFile
deriving DecidableEq, Repr

/-- Model of `loadExistingData`: a store reloaded from the persisted file
starts with exactly the file's record map. -/
def loadItems (f : StoreFile) : EmbMap := f.items

/-- Model of `save`: serialise the whole map and atomically rename the
temporary file over the metadata file. -/
def save (st : StoreState) (now : ℕ) : StoreState :=
  { st with file := some ⟨st.items, now⟩ }

/-- Model of `removeItem`: `this.items.delete(id)` and nothing else. -/
def removeItem (st : StoreState) (id : String) : StoreState :=
  { st with items := jsMapDelete st.items id }

/-- Model of `purgeStaleEmbeddings`: drop every record whose `path` is truthy
and whose backing file is gone (`fileExists` is the `fs.existsSync` oracle;
an existence check that throws is folded into `fileExists _ = false`, since
the `catch` also removes the record); save once iff something was removed. -/
def purgeStaleEmbeddings (st : StoreState) (fileExists : String → Bool)
    (now : ℕ) : StoreState :=
  let keep : String × IndexedItem → Bool :=
    fun p => if p.2.path = "" then true else fileExists p.2.path
  let items2 := st.items.filter keep
  if items2.length < st.items.length then save ⟨items2, st.file⟩ now
  else st

/-! ## Remote calls -/

/-- Model of JavaScript `String.prototype.trim`: strip leading and trailing
whitespace. -/
def jsTrim (s : String) : String :=
  String.mk ((s.data.dropWhile Char.isWhitespace).reverse.dropWhile Char.isWhitespace).reverse

/-- Model of `createEmbedding`.  `remote` is the
`fetch https://api.openai.com/v1/embeddings` oracle, mapping the request text
to either the parsed embedding array or a thrown error (HTTP failures and
malformed response shapes are its `error` outcomes).  The code truncates the
text to 8000 characters before the call and rejects an empty result array. -/
def createEmbedding (hasKey : Bool) (text : String)
    (remote : String → Except String (List ℚ)) : Except String (List ℚ) :=
  if hasKey = false then .error "OpenAI API key not configured"
  else if jsTrim text = "" then .error "Empty text provided for embedding"
  else
    match remote (text.take 8000) with
    | .error e => .error e
    | .ok emb =>
        if emb = [] then .error "Invalid embedding array from OpenAI API"
        else .ok emb

/-- JavaScript string truthiness for an optional field. -/
def truthyStr : Option String → Option String
  | some s => if s = "" then none else some s
  | none => none

/-- Model of `generateComprehensiveDescription` in
`OpenAIEmbeddingService`: use the caller-supplied comprehensive description if
truthy; else read the image (`imageRead` oracle) and ask BAML
(`bamlDesc` oracle); a truthy string reply is used, an empty reply falls back
to the in-`try` metadata concatenation, and a thrown read/BAML error falls
back to the `catch` concatenation.  Never throws. -/
def generateComprehensiveDescription (metadata : Option ItemMetadata)
    (imageRead : Except String Unit)
    (bamlDesc : Except String String) : String :=
  match truthyStr (metadata.bind (·.comprehensive_description)) with
  | some cd => cd
  | none =>
      let tryFallback : String :=
        let c0 := match truthyStr (metadata.bind (·.ai_description)) with
          | some d => d
          | none => "Screenshot"
        let c1 := match truthyStr (metadata.bind (·.ocr_text)) with
          | some t => c0 ++ "\n\nText Content: " ++ t
          | none => c0
        let c2 := match truthyStr (metadata.bind (·.ai_title)) with
          | some t => c1 ++ "\n\nTitle: " ++ t
          | none => c1
        match metadata.bind (·.keywords) with
        | some ks => c2 ++ "\n\nKeywords: " ++ String.intercalate ", " ks
        | none => c2
      let catchFallback : String :=
        let c0 := "Screenshot"
        let c1 := match truthyStr (metadata.bind (·.ocr_text)) with
          | some t => c0 ++ "\n" ++ t
          | none => c0
        let c2 := match truthyStr (metadata.bind (·.ai_title)) with
          | some t => c1 ++ "\nTitle: " ++ t
          | none => c1
        match truthyStr (metadata.bind (·.ai_description)) with
        | some d => c2 ++ "\n" ++ d
        | none => c2
      match imageRead with
      | .error _ => catchFallback
      | .ok _ =>
          match bamlDesc with
          | .error _ => catchFallback
          | .ok d => if d = "" then tryFallback else d

/-! ## addImage -/

/-- Model of `addImage`.  Already-indexed ids are a no-op; otherwise resolve
the comprehensive content, reject when it is blank, create the embedding
(fatal on failure or empty vector), then `set` the record and `save`. -/
def addImage (st : StoreState) (id imagePath : String)
    (metadata : Option ItemMetadata)
    (imageRead : Except String Unit) (bamlDesc : Except String String)
    (hasKey : Bool) (remote : String → Except String (List ℚ))
    (now : ℕ) : Except String StoreState :=
  if jsMapHas st.items id then .ok st
  else
    let comprehensiveContent := generateComprehensiveDescription metadata imageRead bamlDesc
    if jsTrim comprehensiveContent = "" then
      .error ("No comprehensive content generated for image " ++ id)
    else
      match createEmbedding hasKey comprehensiveContent remote with
      | .error e => .error e
      | .ok embedding =>
          if embedding.length = 0 then
            .error ("Failed to create embedding for image " ++ id)
          else
            let item : IndexedItem :=
              ⟨id, imagePath, .image, metadata, some embedding, some comprehensiveContent⟩
            .ok (save ⟨jsMapSet st.items id item, st.file⟩ now)

/-- Exception semantics of one `addImage` call: the resulting store state
(unchanged when the call throws, since the `set` and `save` are the last
operations) together with the thrown message, if any. -/
def addImageRun (st : StoreState) (id imagePath : String)
    (metadata : Option ItemMetadata)
    (imageRead : Except String Unit) (bamlDesc : Except String String)
    (hasKey : Bool) (remote : String → Except String (List ℚ))
    (now : ℕ) : StoreState × Option String :=
  match addImage st id imagePath metadata imageRead bamlDesc hasKey remote now with
  | .ok st2 => (st2, none)
  | .error e => (st, some e)

/-! ## searchByText -/

/-- The JavaScript sort comparator `(a, b) => b.score - a.score`, rendered as
the stable-sort relation `a may stay before b`, i.e. `comparator(a, b) ≤ 0`.
When either score is `NaN` the subtraction is `NaN` and the ECMAScript
`SortCompare` step coerces it to `+0`, so the elements compare as equal and
the relation holds in both directions. -/
def jsCompareKeep (a b : SearchResult) : Bool :=
  match a.score, b.score with
  | some x, some y => scoreLE y x
  | _, _ => true

/-- The scoring loop of `searchByText`: walk the map in insertion order, skip
items without an embedding, compute the cosine similarity with the query
embedding (a thrown length mismatch aborts the loop), and collect results. -/
def collectScores (qe : List ℚ) : EmbMap → Except String (List SearchResult)
  | [] => .ok []
  | (id, it) :: rest =>
      match it.embedding with
      | none => collectScores qe rest
      | some e =>
          match cosineSimilarity qe e with
          | .error err => .error err
          | .ok s =>
              match collectScores qe rest with
              | .error err => .error err
              | .ok others => .ok (⟨id, s, it⟩ :: others)

/-- Model of `searchByText`.  An empty index returns `[]` at once; otherwise
the query is embedded via `createEmbedding`, every stored vector is scored,
results are sorted by descending score and the first `k` are returned.  Any
error inside the `try` (embedding failure, vector length mismatch) is caught
and the call resolves normally with `[]`: the `Except` result is `.ok` on
every path, `.error` would be a rejected promise. -/
def searchByText (items : EmbMap) (hasKey : Bool) (query : String)
    (remote : String → Except String (List ℚ)) (k : ℕ) :
    Except String (List SearchResult) :=
  if items = [] then .ok []
  else
    match createEmbedding hasKey query remote with
    | .error _ => .ok []
    | .ok qe =>
        match collectScores qe items with
        | .error _ => .ok []
        | .ok results => .ok ((results.mergeSort jsCompareKeep).take k)

/-! ## Analysis pipeline (AIProcessor) -/

/-- Model of the `AIAnalysisResult` interface: every field optional. -/
structure AIAnalysisResult where
  ocr_text : Option String
  ai_title : Option String
  ai_description : Option String
  ai_keywords : Option (List String)
  confidence_score : Option ℚ
  content_type : Option String
  app_detected : Option String
  url_detected : Option String
  comprehensive_description : Option String
deriving DecidableEq, Repr

/-- Output of the `extractText` stage: `{text, confidence}`. -/
structure OCRRes where
  text : String
  confidence : ℚ
deriving DecidableEq, Repr

/-- Shape of the remote `ExtractAllText` response. -/
inductive OCRRemote where
  | obj (text : Option String) (confidence : Option ℚ)
  | str (s : String)
  | malformed
deriving DecidableEq, Repr

/-- Model of `extractText`: a structured `{text, confidence}` reply is
accepted (with `text || ''` and `confidence || 0.8` truthiness defaults), a
bare string gets confidence 0.8, and anything malformed or thrown maps to
`{text: "", confidence: 0}`. -/
def extractText (remote : Except String OCRRemote) : OCRRes :=
  match remote with
  | .error _ => ⟨"", 0⟩
  | .ok (.obj t c) =>
      let text := match t with
        | some s => s
        | none => ""
      let confidence := match c with
        | some q => if q = 0 then 0.8 else q
        | none => 0.8
      ⟨text, confidence⟩
  | .ok (.str s) => ⟨s, 0.8⟩
  | .ok .malformed => ⟨"", 0⟩

/-- Result of the remote `AnalyzeScreenshotContent` call. -/
structure ContentAnalysis where
  content_type : String
  app_detected : Option String
  url_detected : Option String
deriving DecidableEq, Repr

/-- Model of `doProcessScreenshot`.  `imageRead` is the `fs.readFileSync`
outcome (a thrown read error is rethrown by the outer catch); `ocrResult` is
the output of the `extractText` stage, and the remaining arguments are the
outputs that the downstream stage calls (title, description, keywords,
classification, comprehensive description) would produce if invoked.  When
the OCR text is empty or whitespace, none of them is consulted. -/
def doProcessScreenshot (imageRead : Except String Unit) (ocrResult : OCRRes)
    (titleResult descriptionResult : String) (keywordsResult : List String)
    (contentAnalysis : ContentAnalysis) (comprehensiveDescription : String) :
    Except String AIAnalysisResult :=
  match imageRead with
  | .error e => .error e
  | .ok _ =>
      let base : AIAnalysisResult :=
        { ocr_text := some ocrResult.text
          ai_title := none
          ai_description := none
          ai_keywords := none
          confidence_score := some ocrResult.confidence
          content_type := none
          app_detected := none
          url_detected := none
          comprehensive_description := none }
      if ocrResult.text ≠ "" ∧ jsTrim ocrResult.text ≠ "" then
        .ok { base with
          ai_title := some titleResult
          ai_description := some descriptionResult
          ai_keywords := some keywordsResult
          content_type := some contentAnalysis.content_type
          app_detected := truthyStr contentAnalysis.app_detected
          url_detected := truthyStr contentAnalysis.url_detected
          comprehensive_description := some comprehensiveDescription }
      else .ok base

/-! ## Hybrid search merge (ipcMain handler `search-screenshots`) -/

/-- A row of the `screenshots` table, as mapped by `mapDbScreenshot`. -/
structure ScreenshotR where
  id : String
  filepath : String
  created_at : ℤ
  is_favorite : Bool
deriving DecidableEq, Repr

/-- A row of `screenshot_metadata` as shaped by `searchScreenshots`. -/
structure MetaRow where
  screenshot_id : String
  ocr_text : String
  ai_title : Option String
  ai_description : Option String
  ai_keywords : List String
  comprehensive_description : Option String
deriving DecidableEq, Repr

/-- A tag row. -/
structure TagR where
  id : ℤ
  name : String
deriving DecidableEq, Repr

/-- A folder row. -/
structure FolderR where
  id : ℤ
  name : String
deriving DecidableEq, Repr

/-- One element of the lexical `dbManager.searchScreenshots` result. -/
structure TextSearchRow where
  screenshot : ScreenshotR
  metadata : Option MetaRow
  relevance_score : Option ℚ
deriving DecidableEq, Repr

/-- The database lookups the merge performs per semantic hit. -/
structure DbView where
  getScreenshot : String → Option ScreenshotR
  getMetadata : String → Option MetaRow
  getTags : String → List TagR
  getFolders : String → List FolderR

/-- A value of the handler's `resultMap`: either an object built from a
semantic hit (screenshot + metadata + tags + folders + `relevance_score`),
or a lexical `searchScreenshots` row stored as-is. -/
inductive MergedEntry where
  | semantic (screenshot : ScreenshotR) (metadata : Option MetaRow)
      (tags : List TagR) (folders : List FolderR) (relevance_score : JsScore)
  | lexical (row : TextSearchRow)
deriving DecidableEq

/-- One iteration of the semantic loop: load the screenshot row (skip the hit
when it is gone) and `resultMap.set` an entry carrying the cosine similarity
as `relevance_score`. -/
def semStep (db : DbView) (m : List (String × MergedEntry)) (r : SearchResult) :
    List (String × MergedEntry) :=
  match db.getScreenshot r.id with
  | none => m
  | some s =>
      jsMapSet m r.id
        (.semantic s (db.getMetadata r.id) (db.getTags r.id)
          (db.getFolders r.id) r.score)

/-- First phase of the merge: insert every semantic result whose screenshot
row still exists, keyed by artifact id. -/
def semPhase (db : DbView) (semanticResults : List SearchResult) :
    List (String × MergedEntry) :=
  semanticResults.foldl (semStep db) []

/-- One iteration of the lexical loop: insert the row only if its id is not
yet a key of the result map. -/
def lexStep (m : List (String × MergedEntry)) (r : TextSearchRow) :
    List (String × MergedEntry) :=
  if jsMapHas m r.screenshot.id then m
  else jsMapSet m r.screenshot.id (.lexical r)

/-- Second phase: fold the lexical rows over the semantic result map. -/
def lexPhase (m0 : List (String × MergedEntry)) (textResults : List TextSearchRow) :
    List (String × MergedEntry) :=
  textResults.foldl lexStep m0

/-- The merge of the `search-screenshots` handler (semantic branch): build the
`resultMap`, take its values in insertion order, truncate to `limit`. -/
def searchScreenshotsMerge (db : DbView) (semanticResults : List SearchResult)
    (textResults : List TextSearchRow) (limit : ℕ) : List MergedEntry :=
  (((lexPhase (semPhase db semanticResults) textResults).map (·.2)).take limit)

/-! ## Smart folder evaluator (`getScreenshotsForSmartFolder`) -/

/-- Resolution of `rules.days || 7`: `0` and a missing field are falsy. -/
def recentDaysResolved (days : Option ℤ) : ℤ :=
  match days with
  | some d => if d = 0 then 7 else d
  | none => 7

/-- The `'recent'` branch of `getScreenshotsForSmartFolder`:
`SELECT * FROM screenshots WHERE created_at > ? ORDER BY created_at DESC`
with `? = Date.now() - daysAgo * 24*60*60*1000`.  The SQL scan is modelled as
a filter over the table rows followed by a descending sort (the engine's
ordering for equal keys is refined here to be stable). -/
def smartFolderRecent (rows : List ScreenshotR) (days : Option ℤ)
    (now : ℤ) : List ScreenshotR :=
  let daysAgo := recentDaysResolved days
  let since := now - daysAgo * 24 * 60 * 60 * 1000
  (rows.filter (fun s => decide (since < s.created_at))).mergeSort
    (fun a b => decide (b.created_at ≤ a.created_at))

/-! ## Auxiliary order used only in proofs -/

/-- Rational sort key of a search result (proof device, not part of the
model): finite scores map to their `scoreKey`, `NaN` to an arbitrary value.
On lists without `NaN` scores the induced descending order agrees pairwise
with `jsCompareKeep`, and it is globally total and transitive. -/
def srKey (r : SearchResult) : ℚ :=
  match r.score with
  | none => 0
  | some s => scoreKey s

/-- Globally total and transitive descending-key comparison. -/
def srKeep (a b : SearchResult) : Bool :=
  decide (srKey b ≤ srKey a)

/-! ## Concrete sample data -/

/-- Sample indexed item with a unit embedding vector. -/
def itemG : IndexedItem :=
  ⟨"g", "/shots/g.png", .image, none, some [1], some "good item"⟩

/-- Sample indexed item whose stored embedding is the zero vector. -/
def itemZ : IndexedItem :=
  ⟨"z", "/shots/z.png", .image, none, some [0], some "zero item"⟩

/-- Sample two-item store: a zero-vector record inserted before a unit-vector
record. -/
def cItems : EmbMap := [("z", itemZ), ("g", itemG)]

/-- Sample embedding endpoint returning the unit vector for every request. -/
def cRemoteOk : String → Except String (List ℚ) := fun _ => .ok [1]

/-- Sample embedding endpoint that always fails. -/
def cRemoteBoom : String → Except String (List ℚ) := fun _ => .error "boom"

/-- Sample store state whose file is in sync with its single record. -/
def storeG : StoreState := ⟨[("g", itemG)], some ⟨[("g", itemG)], 5⟩⟩

/-- Sample boundary screenshot row created exactly at epoch 0. -/
def ssBoundary : ScreenshotR := ⟨"s1", "/shots/s1.png", 0, false⟩

/-- The record a successful sample `addImage` call stores. -/
def wItem : IndexedItem :=
  ⟨"a", "/shots/a.png", .image, none, some [1], some "desc"⟩

/-- The store state after that sample `addImage` call. -/
def wStore2 : StoreState := ⟨[("a", wItem)], some ⟨[("a", wItem)], 7⟩⟩

/-- Sample screenshot row with id `"g"`. -/
def cSsG : ScreenshotR := ⟨"g", "/shots/g.png", 100, false⟩

/-- Sample database view: only the screenshot `"g"` exists. -/
def cDb : DbView :=
  ⟨fun id => if id = "g" then some cSsG else none, fun _ => none,
   fun _ => [], fun _ => []⟩

/-- Sample semantic result list: one hit on `"g"` with score 1. -/
def cSemR : List SearchResult := [⟨"g", some ⟨1, 1⟩, itemG⟩]

/-- Sample lexical result list: one hit on the same id `"g"`. -/
def cLexR : List TextSearchRow := [⟨cSsG, none, none⟩]

/-! ## Basic lemmas about norms, dot products and score order -/

theorem sumSq_nonneg (a : List ℚ) : 0 ≤ sumSq a := by
  induction a with
  | nil => simp [sumSq]
  | cons x xs ih =>
      simp only [sumSq, List.map_cons, List.sum_cons]
      have hx : 0 ≤ x * x := mul_self_nonneg x
      have := ih
      simp only [sumSq] at this
      linarith

theorem sumSq_eq_zero_iff (a : List ℚ) : sumSq a = 0 ↔ ∀ x ∈ a, x = 0 := by
  induction a with
  | nil => simp [sumSq]
  | cons x xs ih =>
      simp only [sumSq, List.map_cons, List.sum_cons, List.mem_cons]
      constructor
      · intro h
        have hx : 0 ≤ x * x := mul_self_nonneg x
        have hxs : 0 ≤ sumSq xs := sumSq_nonneg xs
        simp only [sumSq] at hxs
        have hx0 : x * x = 0 := by linarith
        have hxz : x = 0 := by
          rcases mul_self_eq_zero.mp hx0 with h0
          exact h0
        have hrest : ∀ y ∈ xs, y = 0 := by
          apply ih.mp
          simp only [sumSq]
          linarith
        intro y hy
        rcases hy with rfl | hy
        · exact hxz
        · exact hrest y hy
      · intro h
        have hxz : x = 0 := h x (Or.inl rfl)
        have hrest : sumSq xs = 0 := ih.mpr (fun y hy => h y (Or.inr hy))
        simp only [sumSq] at hrest
        simp [hxz, hrest]

theorem dotProd_eq_zero_left {a : List ℚ} (b : List ℚ)
    (h : ∀ x ∈ a, x = 0) : dotProd a b = 0 := by
  induction a generalizing b with
  | nil => simp [dotProd]
  | cons x xs ih =>
      cases b with
      | nil => simp [dotProd]
      | cons y ys =>
          have hx : x = 0 := h x (by simp)
          have hxs : ∀ z ∈ xs, z = 0 := fun z hz => h z (by simp [hz])
          have := ih ys hxs
          simp only [dotProd, List.zipWith_cons_cons, List.sum_cons] at *
          simp [hx, this]

theorem dotProd_eq_zero_right (a : List ℚ) {b : List ℚ}
    (h : ∀ x ∈ b, x = 0) : dotProd a b = 0 := by
  induction a generalizing b with
  | nil => simp [dotProd]
  | cons x xs ih =>
      cases b with
      | nil => simp [dotProd]
      | cons y ys =>
          have hy : y = 0 := h y (by simp)
          have hys : ∀ z ∈ ys, z = 0 := fun z hz => h z (by simp [hz])
          have := ih (b := ys) hys
          simp only [dotProd, List.zipWith_cons_cons, List.sum_cons] at *
          simp [hy, this]

/-- Squaring is monotone on nonnegative reals, as an iff. -/
theorem real_le_iff_sq {u v : ℝ} (hu : 0 ≤ u) (hv : 0 ≤ v) :
    u ≤ v ↔ u ^ 2 ≤ v ^ 2 := by
  constructor
  · intro h; nlinarith
  · intro h; nlinarith

/-- Squaring reverses order on nonpositive reals, as an iff. -/
theorem real_le_iff_sq_neg {u v : ℝ} (hu : u ≤ 0) (hv : v ≤ 0) :
    u ≤ v ↔ v ^ 2 ≤ u ^ 2 := by
  have hflip : (u ≤ v) ↔ (-v ≤ -u) := ⟨fun h => by linarith, fun h => by linarith⟩
  rw [hflip, real_le_iff_sq (by linarith) (by linarith), neg_pow, neg_pow]
  simp

/-- The rational key order coincides with the real order of score values, for
scores with positive squared denominator. -/
theorem scoreKey_le_iff_real {x y : ScoreVal}
    (hx : 0 < x.den2) (hy : 0 < y.den2) :
    scoreKey x ≤ scoreKey y ↔ scoreValR x ≤ scoreValR y := by
  have hxR : (0 : ℝ) < (x.den2 : ℝ) := by exact_mod_cast hx
  have hyR : (0 : ℝ) < (y.den2 : ℝ) := by exact_mod_cast hy
  have ht0 : 0 < Real.sqrt (x.den2 : ℝ) := Real.sqrt_pos.mpr hxR
  have hs0 : 0 < Real.sqrt (y.den2 : ℝ) := Real.sqrt_pos.mpr hyR
  have ht2 : Real.sqrt (x.den2 : ℝ) ^ 2 = (x.den2 : ℝ) :=
    Real.sq_sqrt (le_of_lt hxR)
  have hs2 : Real.sqrt (y.den2 : ℝ) ^ 2 = (y.den2 : ℝ) :=
    Real.sq_sqrt (le_of_lt hyR)
  have hval : scoreValR x ≤ scoreValR y ↔
      (x.num : ℝ) * Real.sqrt (y.den2 : ℝ) ≤ (y.num : ℝ) * Real.sqrt (x.den2 : ℝ) := by
    unfold scoreValR
    exact div_le_div_iff ht0 hs0
  rw [hval]
  by_cases hxn : x.num < 0
  · by_cases hyn : y.num < 0
    · -- both negative
      have hxnR : (x.num : ℝ) < 0 := by exact_mod_cast hxn
      have hynR : (y.num : ℝ) < 0 := by exact_mod_cast hyn
      have hkey : scoreKey x ≤ scoreKey y ↔
          y.num ^ 2 * x.den2 ≤ x.num ^ 2 * y.den2 := by
        unfold scoreKey
        rw [if_pos hxn, if_pos hyn, neg_le_neg_iff]
        exact div_le_div_iff hy hx
      rw [hkey]
      have hR : y.num ^ 2 * x.den2 ≤ x.num ^ 2 * y.den2 ↔
          ((y.num : ℝ)) ^ 2 * (x.den2 : ℝ) ≤ ((x.num : ℝ)) ^ 2 * (y.den2 : ℝ) := by
        constructor
        · intro h; exact_mod_cast h
        · intro h; exact_mod_cast h
      rw [hR]
      have hu : (x.num : ℝ) * Real.sqrt (y.den2 : ℝ) ≤ 0 :=
        mul_nonpos_of_nonpos_of_nonneg (le_of_lt hxnR) (le_of_lt hs0)
      have hv : (y.num : ℝ) * Real.sqrt (x.den2 : ℝ) ≤ 0 :=
        mul_nonpos_of_nonpos_of_nonneg (le_of_lt hynR) (le_of_lt ht0)
      rw [real_le_iff_sq_neg hu hv, mul_pow, mul_pow, ht2, hs2]
    · -- x negative, y nonnegative: both sides always true
      have hynn : 0 ≤ y.num := le_of_not_lt hyn
      have hxnR : (x.num : ℝ) < 0 := by exact_mod_cast hxn
      have hynR : (0 : ℝ) ≤ (y.num : ℝ) := by exact_mod_cast hynn
      have hkey : scoreKey x ≤ scoreKey y := by
        unfold scoreKey
        rw [if_pos hxn, if_neg hyn]
        have h1 : 0 ≤ x.num ^ 2 / x.den2 := div_nonneg (sq_nonneg _) (le_of_lt hx)
        have h2 : 0 ≤ y.num ^ 2 / y.den2 := div_nonneg (sq_nonneg _) (le_of_lt hy)
        linarith
      have hRle : (x.num : ℝ) * Real.sqrt (y.den2 : ℝ) ≤ (y.num : ℝ) * Real.sqrt (x.den2 : ℝ) := by
        have h1 : (x.num : ℝ) * Real.sqrt (y.den2 : ℝ) ≤ 0 :=
          mul_nonpos_of_nonpos_of_nonneg (le_of_lt hxnR) (le_of_lt hs0)
        have h2 : 0 ≤ (y.num : ℝ) * Real.sqrt (x.den2 : ℝ) :=
          mul_nonneg hynR (le_of_lt ht0)
        linarith
      simp [hkey, hRle]
  · by_cases hyn : y.num < 0
    · -- x nonnegative, y negative: both sides always false
      have hxnn : 0 ≤ x.num := le_of_not_lt hxn
      have hxnR : (0 : ℝ) ≤ (x.num : ℝ) := by exact_mod_cast hxnn
      have hynR : (y.num : ℝ) < 0 := by exact_mod_cast hyn
      have hkey : ¬ scoreKey x ≤ scoreKey y := by
        unfold scoreKey
        rw [if_neg hxn, if_pos hyn]
        have h1 : 0 ≤ x.num ^ 2 / x.den2 := div_nonneg (sq_nonneg _) (le_of_lt hx)
        have h2 : 0 < y.num ^ 2 / y.den2 := by
          apply div_pos _ hy
          have hyne : y.num ≠ 0 := ne_of_lt hyn
          positivity
        intro h
        linarith
      have hRlt : ¬ (x.num : ℝ) * Real.sqrt (y.den2 : ℝ) ≤ (y.num : ℝ) * Real.sqrt (x.den2 : ℝ) := by
        have h1 : 0 ≤ (x.num : ℝ) * Real.sqrt (y.den2 : ℝ) :=
          mul_nonneg hxnR (le_of_lt hs0)
        have h2 : (y.num : ℝ) * Real.sqrt (x.den2 : ℝ) < 0 :=
          mul_neg_of_neg_of_pos hynR ht0
        intro h
        linarith
      simp [hkey, hRlt]
    · -- both nonnegative
      have hxnn : 0 ≤ x.num := le_of_not_lt hxn
      have hynn : 0 ≤ y.num := le_of_not_lt hyn
      have hxnR : (0 : ℝ) ≤ (x.num : ℝ) := by exact_mod_cast hxnn
      have hynR : (0 : ℝ) ≤ (y.num : ℝ) := by exact_mod_cast hynn
      have hkey : scoreKey x ≤ scoreKey y ↔
          x.num ^ 2 * y.den2 ≤ y.num ^ 2 * x.den2 := by
        unfold scoreKey
        rw [if_neg hxn, if_neg hyn]
        exact div_le_div_iff hx hy
      rw [hkey]
      have hR : x.num ^ 2 * y.den2 ≤ y.num ^ 2 * x.den2 ↔
          ((x.num : ℝ)) ^ 2 * (y.den2 : ℝ) ≤ ((y.num : ℝ)) ^ 2 * (x.den2 : ℝ) := by
        constructor
        · intro h; exact_mod_cast h
        · intro h; exact_mod_cast h
      rw [hR]
      have hu : 0 ≤ (x.num : ℝ) * Real.sqrt (y.den2 : ℝ) := mul_nonneg hxnR (le_of_lt hs0)
      have hv : 0 ≤ (y.num : ℝ) * Real.sqrt (x.den2 : ℝ) := mul_nonneg hynR (le_of_lt ht0)
      rw [real_le_iff_sq hu hv, mul_pow, mul_pow, ht2, hs2]


/-! ## Claim C2: unequal vector lengths are a thrown error -/

/-- C2: for every pair of vectors of unequal length, `cosineSimilarity`
raises the length-mismatch error and never returns a numeric value — there is
no zero-padding or truncation. -/
theorem cosineSimilarity_length_mismatch (a b : List ℚ)
    (h : a.length ≠ b.length) :
    cosineSimilarity a b = .error "Vectors must have the same length" := by
  simp [cosineSimilarity, h]

/-- Witness for C2 at the concrete input `[1, 2]` versus `[1]`. -/
theorem cosineSimilarity_length_mismatch_witness :
    ([(1 : ℚ), 2].length ≠ [(1 : ℚ)].length) ∧
    cosineSimilarity [(1 : ℚ), 2] [(1 : ℚ)] =
      .error "Vectors must have the same length" :=
  ⟨by decide, cosineSimilarity_length_mismatch _ _ (by decide)⟩

/-! ## Claim C4: empty OCR short-circuits the pipeline -/

/-- C4: when the OCR stage yields `{text: "", confidence: 0}` (and the image
read itself succeeded), the pipeline result carries only the OCR fields:
`ai_title`, `ai_description`, `ai_keywords`, `content_type`, `app_detected`,
`url_detected` and `comprehensive_description` are all unset, and the result
is the same whatever the downstream stages would have produced — no
downstream stage output is consulted. -/
theorem pipeline_empty_ocr_short_circuit (t d : String) (ks : List String)
    (ca : ContentAnalysis) (comp : String) :
    doProcessScreenshot (.ok ()) ⟨"", 0⟩ t d ks ca comp =
      .ok ⟨some "", none, none, none, some 0, none, none, none, none⟩ := by
  simp [doProcessScreenshot]

/-- Witness for C4 at concrete downstream stage outputs. -/
theorem pipeline_empty_ocr_short_circuit_witness :
    doProcessScreenshot (.ok ()) ⟨"", 0⟩ "T" "D" ["k"] ⟨"code", none, none⟩ "C" =
      .ok ⟨some "", none, none, none, some 0, none, none, none, none⟩ :=
  pipeline_empty_ocr_short_circuit "T" "D" ["k"] ⟨"code", none, none⟩ "C"

/-! ## Claim C9: addImage is idempotent by id -/

/-- C9: if `id` already has a record, `addImage` is a no-op: the returned
state is the unchanged input state (memory and durable file alike), and the
result does not depend on any of the remote oracles — no remote call can
influence it. -/
theorem addImage_idempotent (st : StoreState) (id p : String)
    (md : Option ItemMetadata) (ir : Except String Unit)
    (bd : Except String String) (hk : Bool)
    (rm : String → Except String (List ℚ)) (now : ℕ)
    (h : jsMapHas st.items id = true) :
    addImage st id p md ir bd hk rm now = .ok st ∧
    addImageRun st id p md ir bd hk rm now = (st, none) := by
  constructor
  · simp [addImage, h]
  · simp [addImageRun, addImage, h]

/-- Witness for C9: a second `addImage` for the already-indexed id `"g"` is a
no-op even with a failing embedding endpoint and no API key. -/
theorem addImage_idempotent_witness :
    addImage storeG "g" "/shots/other.png" none (.ok ()) (.ok "") false cRemoteBoom 9 =
      .ok storeG ∧
    addImageRun storeG "g" "/shots/other.png" none (.ok ()) (.ok "") false cRemoteBoom 9 =
      (storeG, none) :=
  addImage_idempotent storeG "g" "/shots/other.png" none (.ok ()) (.ok "") false
    cRemoteBoom 9 (by decide)

/-! ## Claim C5: searchByText swallows embedding failures -/

/-- Counterexample to C5 as stated: with a non-empty store and an embedding
endpoint that throws, `searchByText` does not propagate the failure — the
call resolves normally with the empty result list (`.ok`, not `.error`). -/
theorem searchByText_error_swallowed_cex :
    searchByText cItems true "query" cRemoteBoom 10 = .ok [] := by
  rfl

/-- C5 (amended): a failing remote embedding call during `searchByText` is
caught; the call resolves normally with `[]` instead of propagating. -/
theorem searchByText_swallows_failure (items : EmbMap) (hk : Bool) (q : String)
    (rm : String → Except String (List ℚ)) (k : ℕ) (e : String)
    (h : createEmbedding hk q rm = .error e) :
    searchByText items hk q rm k = .ok [] := by
  unfold searchByText
  split
  · rfl
  · rw [h]

/-- Witness for C5 (amended) at a concrete failing endpoint. -/
theorem searchByText_swallows_failure_witness :
    createEmbedding true "query" cRemoteBoom = .error "boom" ∧
    searchByText cItems true "query" cRemoteBoom 3 = .ok [] :=
  ⟨by rfl, searchByText_swallows_failure cItems true "query" cRemoteBoom 3 "boom" (by rfl)⟩

/-! ## Claim C6: which mutations persist -/

/-- Counterexample to C6 as stated: `removeItem` deletes the record from the
in-memory map but never saves, so the durable file still contains the record
and a store reloaded from it still has the removed id. -/
theorem removeItem_not_persisted_cex :
    jsMapHas (removeItem storeG "g").items "g" = false ∧
    (removeItem storeG "g").file = some ⟨[("g", itemG)], 5⟩ ∧
    jsMapHas (loadItems ⟨[("g", itemG)], 5⟩) "g" = true := by
  decide

/-- C6 (amended): a successful indexing `addImage` call and a
record-removing `purgeStaleEmbeddings` call leave the durable file equal to
the in-memory map; `removeItem`, however, only deletes from the in-memory map
and leaves the durable file untouched. -/
theorem store_persistence_semantics :
    (∀ (st : StoreState) (id p : String) (md : Option ItemMetadata)
        (ir : Except String Unit) (bd : Except String String) (hk : Bool)
        (rm : String → Except String (List ℚ)) (now : ℕ) (st2 : StoreState),
      jsMapHas st.items id = false →
      addImage st id p md ir bd hk rm now = .ok st2 →
      st2.file = some ⟨st2.items, now⟩) ∧
    (∀ (st : StoreState) (fe : String → Bool) (now : ℕ),
      (purgeStaleEmbeddings st fe now).file =
        some ⟨(purgeStaleEmbeddings st fe now).items, now⟩ ∨
      purgeStaleEmbeddings st fe now = st) ∧
    (∀ (st : StoreState) (id : String),
      removeItem st id = ⟨jsMapDelete st.items id, st.file⟩) := by
  refine ⟨?_, ?_, ?_⟩
  · intro st id p md ir bd hk rm now st2 hnew hok
    unfold addImage at hok
    rw [hnew] at hok
    simp only [Bool.false_eq_true, if_false] at hok
    split at hok
    · simp at hok
    · split at hok
      · simp at hok
      · split at hok
        · simp at hok
        · simp only [Except.ok.injEq] at hok
          subst hok
          rfl
  · intro st fe now
    by_cases h :
      (st.items.filter (fun p => (decide (p.2.path = "") || fe p.2.path))).length <
        st.items.length
    · left; simp [purgeStaleEmbeddings, h, save]
    · right; simp [purgeStaleEmbeddings, h]
  · intro st id
    rfl

/-- Witness for C6 (amended): the fresh-id `addImage` branch applied at a
concrete successful call (empty store, working endpoint). -/
theorem store_persistence_semantics_witness :
    jsMapHas (⟨[], none⟩ : StoreState).items "a" = false ∧
    addImage ⟨[], none⟩ "a" "/shots/a.png" none (.ok ()) (.ok "desc") true cRemoteOk 7 =
      .ok wStore2 ∧
    wStore2.file = some ⟨wStore2.items, 7⟩ :=
  ⟨by decide, by rfl,
    store_persistence_semantics.1 ⟨[], none⟩ "a" "/shots/a.png" none (.ok ())
      (.ok "desc") true cRemoteOk 7 wStore2 (by decide) (by rfl)⟩

/-! ## Claim C7: the Recent smart-folder rule is strict at the boundary -/

/-- Counterexample to C7 as stated: a screenshot created exactly at
`now - 7 * 86400000` (the seven-day boundary, in milliseconds) satisfies the
claimed inclusive condition yet is excluded — the SQL predicate is the strict
`created_at > since`. -/
theorem smartFolderRecent_boundary_cex :
    smartFolderRecent [ssBoundary] (some 7) 604800000 = [] ∧
    604800000 - 7 * 86400000 ≤ ssBoundary.created_at := by
  constructor
  · unfold smartFolderRecent recentDaysResolved
    norm_num [ssBoundary]
  · decide

/-- C7 (amended): `Recent{days}` returns exactly the rows whose creation
timestamp is strictly greater than `now - days · 86400000` ms (the boundary
row is excluded; absent or zero `days` defaults to 7), sorted newest-first. -/
theorem smartFolderRecent_strict (rows : List ScreenshotR) (days : Option ℤ)
    (now : ℤ) :
    (∀ s : ScreenshotR, s ∈ smartFolderRecent rows days now ↔
      s ∈ rows ∧ now - recentDaysResolved days * 24 * 60 * 60 * 1000 < s.created_at) ∧
    (smartFolderRecent rows days now).Pairwise
      (fun a b => b.created_at ≤ a.created_at) := by
  constructor
  · intro s
    unfold smartFolderRecent
    rw [List.mem_mergeSort, List.mem_filter]
    simp
  · unfold smartFolderRecent
    have htrans : ∀ a b c : ScreenshotR,
        (fun a b : ScreenshotR => decide (b.created_at ≤ a.created_at)) a b →
        (fun a b : ScreenshotR => decide (b.created_at ≤ a.created_at)) b c →
        (fun a b : ScreenshotR => decide (b.created_at ≤ a.created_at)) a c := by
      intro a b c hab hbc
      simp only [decide_eq_true_eq] at hab hbc ⊢
      exact le_trans hbc hab
    have htotal : ∀ a b : ScreenshotR,
        ((fun a b : ScreenshotR => decide (b.created_at ≤ a.created_at)) a b ||
         (fun a b : ScreenshotR => decide (b.created_at ≤ a.created_at)) b a) := by
      intro a b
      simp only [Bool.or_eq_true, decide_eq_true_eq]
      exact le_total b.created_at a.created_at
    have h := List.sorted_mergeSort htrans htotal
      (rows.filter (fun s => decide (now - recentDaysResolved days * 24 * 60 * 60 * 1000 < s.created_at)))
    exact h.imp (fun hab => by simpa using hab)

/-- Witness for C7 (amended) at the concrete boundary input. -/
theorem smartFolderRecent_strict_witness :
    (∀ s : ScreenshotR, s ∈ smartFolderRecent [ssBoundary] (some 7) 604800000 ↔
      s ∈ [ssBoundary] ∧
        604800000 - recentDaysResolved (some 7) * 24 * 60 * 60 * 1000 <
          s.created_at) ∧
    (smartFolderRecent [ssBoundary] (some 7) 604800000).Pairwise
      (fun a b => b.created_at ≤ a.created_at) :=
  smartFolderRecent_strict [ssBoundary] (some 7) 604800000

/-! ## Claim C8: a failed embedding aborts addImage without mutation -/

/-- A blank request text, a thrown remote call, or an empty embedding array
makes `createEmbedding` throw (whatever the API-key state). -/
theorem createEmbedding_fails (hk : Bool) (text : String)
    (rm : String → Except String (List ℚ))
    (h : jsTrim text = "" ∨ (∃ m, rm (text.take 8000) = .error m) ∨
         rm (text.take 8000) = .ok []) :
    ∃ e, createEmbedding hk text rm = .error e := by
  unfold createEmbedding
  cases hk
  · exact ⟨_, rfl⟩
  · rw [if_neg (by decide : ¬ (true : Bool) = false)]
    by_cases htrim : jsTrim text = ""
    · rw [if_pos htrim]; exact ⟨_, rfl⟩
    · rw [if_neg htrim]
      rcases h with h | ⟨m, hm⟩ | hnil
      · exact absurd h htrim
      · rw [hm]; exact ⟨_, rfl⟩
      · rw [hnil]; exact ⟨_, rfl⟩

/-- C8: when the resolved comprehensive text is blank, or the remote
embedding call fails, or it yields an empty vector, the `addImage` call for a
fresh id raises a fatal error and leaves the store — in-memory record map and
persisted file alike — unchanged. -/
theorem addImage_fatal_on_bad_embedding (st : StoreState) (id p : String)
    (md : Option ItemMetadata) (ir : Except String Unit)
    (bd : Except String String) (hk : Bool)
    (rm : String → Except String (List ℚ)) (now : ℕ)
    (hnew : jsMapHas st.items id = false)
    (hfail :
      jsTrim (generateComprehensiveDescription md ir bd) = "" ∨
      (∃ m, rm ((generateComprehensiveDescription md ir bd).take 8000) = .error m) ∨
      rm ((generateComprehensiveDescription md ir bd).take 8000) = .ok []) :
    (∃ e, addImage st id p md ir bd hk rm now = .error e) ∧
    (addImageRun st id p md ir bd hk rm now).1 = st := by
  have hrun : ∃ e, addImage st id p md ir bd hk rm now = .error e := by
    unfold addImage
    rw [hnew, if_neg (by decide : ¬ (false : Bool) = true)]
    by_cases htrim : jsTrim (generateComprehensiveDescription md ir bd) = ""
    · rw [if_pos htrim]; exact ⟨_, rfl⟩
    · rw [if_neg htrim]
      obtain ⟨e, he⟩ :=
        createEmbedding_fails hk (generateComprehensiveDescription md ir bd) rm
          (Or.inr (hfail.resolve_left htrim))
      rw [he]
      exact ⟨e, rfl⟩
  refine ⟨hrun, ?_⟩
  obtain ⟨e, he⟩ := hrun
  unfold addImageRun
  rw [he]

/-- Witness for C8: a failing embedding endpoint aborts a concrete fresh-id
`addImage` call on the empty store, leaving the store unchanged. -/
theorem addImage_fatal_witness :
    (∃ e, addImage ⟨[], none⟩ "b" "/shots/b.png" none (.ok ()) (.ok "desc")
        true cRemoteBoom 3 = .error e) ∧
    (addImageRun ⟨[], none⟩ "b" "/shots/b.png" none (.ok ()) (.ok "desc")
        true cRemoteBoom 3).1 = ⟨[], none⟩ :=
  addImage_fatal_on_bad_embedding ⟨[], none⟩ "b" "/shots/b.png" none (.ok ())
    (.ok "desc") true cRemoteBoom 3 (by decide) (Or.inr (Or.inl ⟨"boom", rfl⟩))

/-! ## Claim C10: unguarded division yields NaN scores -/

/-- For equal-length vectors `cosineSimilarity` returns normally, with `NaN`
exactly when the product of the squared norms is zero. -/
theorem cosineSimilarity_eq (a b : List ℚ) (hlen : a.length = b.length) :
    cosineSimilarity a b =
      .ok (if sumSq a * sumSq b = 0 then none
           else some ⟨dotProd a b, sumSq a * sumSq b⟩) := by
  unfold cosineSimilarity
  rw [if_neg (by simp [hlen])]
  by_cases hz : sumSq a * sumSq b = 0
  · simp [hz]
  · simp [hz]

/-- Zero-norm inputs of equal length give `NaN` (no error is raised). -/
theorem cosineSimilarity_zero_norm (a b : List ℚ) (hlen : a.length = b.length)
    (h : sumSq a = 0 ∨ sumSq b = 0) :
    cosineSimilarity a b = .ok none := by
  rw [cosineSimilarity_eq a b hlen]
  have hz : sumSq a * sumSq b = 0 := by
    rcases h with h | h <;> simp [h]
  rw [if_pos hz]

/-- The scoring loop succeeds whenever every stored embedding has the query
embedding's length; it visits every embedded record and every result entry
comes from one. -/
theorem collectScores_ok (qe : List ℚ) (items : EmbMap)
    (hlen : ∀ p ∈ items, ∀ e, p.2.embedding = some e → e.length = qe.length) :
    ∃ rs, collectScores qe items = .ok rs ∧
      rs.length ≤ items.length ∧
      (∀ p ∈ items, ∀ e, p.2.embedding = some e → ∀ s,
        cosineSimilarity qe e = .ok s → (⟨p.1, s, p.2⟩ : SearchResult) ∈ rs) ∧
      (∀ r ∈ rs, ∃ p ∈ items, p.2 = r.item ∧ ∃ e, r.item.embedding = some e ∧
        cosineSimilarity qe e = .ok r.score) := by
  induction items with
  | nil => exact ⟨[], rfl, by simp, by simp, by simp⟩
  | cons p rest ih =>
      obtain ⟨pid, pit⟩ := p
      have hlen2 : ∀ q ∈ rest, ∀ e, q.2.embedding = some e → e.length = qe.length :=
        fun q hq => hlen q (List.mem_cons_of_mem _ hq)
      obtain ⟨rs, hrs, hle, hmem, hchar⟩ := ih hlen2
      cases hpe : pit.embedding with
      | none =>
          refine ⟨rs, ?_, ?_, ?_, ?_⟩
          · simp [collectScores, hpe, hrs]
          · exact le_trans hle (Nat.le_succ _)
          · intro q hq e he s hs
            rcases List.mem_cons.mp hq with rfl | hq2
            · rw [hpe] at he; cases he
            · exact hmem q hq2 e he s hs
          · intro r hr
            obtain ⟨p2, hp2, hrest⟩ := hchar r hr
            exact ⟨p2, List.mem_cons_of_mem _ hp2, hrest⟩
      | some e =>
          have helen : e.length = qe.length := hlen (pid, pit) (by simp) e hpe
          have hcos := cosineSimilarity_eq qe e helen.symm
          refine ⟨⟨pid,
              (if sumSq qe * sumSq e = 0 then none
               else some ⟨dotProd qe e, sumSq qe * sumSq e⟩), pit⟩ :: rs,
            ?_, ?_, ?_, ?_⟩
          · simp [collectScores, hpe, hcos, hrs]
          · simpa using Nat.succ_le_succ hle
          · intro q hq e2 he2 s hs
            rcases List.mem_cons.mp hq with rfl | hq2
            · rw [hpe] at he2
              cases he2
              rw [hcos] at hs
              cases hs
              exact List.mem_cons_self _ _
            · exact List.mem_cons_of_mem _ (hmem q hq2 e2 he2 s hs)
          · intro r hr
            rcases List.mem_cons.mp hr with rfl | hr2
            · exact ⟨(pid, pit), List.mem_cons_self _ _, rfl, e, hpe, hcos⟩
            · obtain ⟨p2, hp2, hrest⟩ := hchar r hr2
              exact ⟨p2, List.mem_cons_of_mem _ hp2, hrest⟩

/-- C10: the division in `cosineSimilarity` is unguarded.  (i) For
equal-length vectors with a zero-norm side it returns `NaN` rather than
raising; (ii) `sim(a, a)` is `1` exactly for vectors of nonzero norm (the
zero vector gets `NaN` by (i)); (iii) a stored zero vector therefore floods a
`NaN` score into the `searchByText` results. -/
theorem cosineSimilarity_nan_unguarded :
    (∀ a b : List ℚ, a.length = b.length → (sumSq a = 0 ∨ sumSq b = 0) →
      cosineSimilarity a b = .ok none) ∧
    (∀ a : List ℚ, sumSq a ≠ 0 →
      cosineSimilarity a a = .ok (some ⟨sumSq a, sumSq a * sumSq a⟩) ∧
      scoreValR ⟨sumSq a, sumSq a * sumSq a⟩ = 1) ∧
    (∀ (items : EmbMap) (hk : Bool) (q : String)
        (rm : String → Except String (List ℚ)) (k : ℕ) (qe : List ℚ)
        (id : String) (it : IndexedItem) (e : List ℚ),
      createEmbedding hk q rm = .ok qe →
      (id, it) ∈ items → it.embedding = some e → sumSq e = 0 →
      (∀ p ∈ items, ∀ e2, p.2.embedding = some e2 → e2.length = qe.length) →
      items.length ≤ k →
      ∃ res, searchByText items hk q rm k = .ok res ∧
        ∃ r ∈ res, r.id = id ∧ r.score = none) := by
  refine ⟨cosineSimilarity_zero_norm, ?_, ?_⟩
  · intro a h
    constructor
    · rw [cosineSimilarity_eq a a rfl, if_neg (mul_ne_zero h h)]
      have hd : dotProd a a = sumSq a := by
        unfold dotProd sumSq
        rw [List.zipWith_same]
      rw [hd]
    · unfold scoreValR
      have hpos : 0 < sumSq a := lt_of_le_of_ne (sumSq_nonneg a) (Ne.symm h)
      have hposR : (0 : ℝ) < ((sumSq a : ℚ) : ℝ) := by exact_mod_cast hpos
      push_cast
      rw [show ((sumSq a : ℚ) : ℝ) * ((sumSq a : ℚ) : ℝ) = ((sumSq a : ℚ) : ℝ) ^ 2 by ring,
        Real.sqrt_sq (le_of_lt hposR)]
      exact div_self (ne_of_gt hposR)
  · intro items hk q rm k qe id it e hemb hmem hsome hz hlens hkk
    have hne : items ≠ [] := by
      intro hnil
      subst hnil
      simp at hmem
    obtain ⟨rs, hrs, hlen_rs, hmemf, _⟩ := collectScores_ok qe items hlens
    have helen : e.length = qe.length := hlens (id, it) hmem e hsome
    have hcos : cosineSimilarity qe e = .ok none :=
      cosineSimilarity_zero_norm qe e helen.symm (Or.inr hz)
    have hrmem : (⟨id, none, it⟩ : SearchResult) ∈ rs :=
      hmemf (id, it) hmem e hsome none hcos
    refine ⟨(rs.mergeSort jsCompareKeep).take k, ?_, ?_⟩
    · unfold searchByText
      rw [if_neg hne, hemb]
      dsimp only
      rw [hrs]
    · have hmem2 : (⟨id, none, it⟩ : SearchResult) ∈ rs.mergeSort jsCompareKeep :=
        List.mem_mergeSort.mpr hrmem
      have hlen2 : (rs.mergeSort jsCompareKeep).length ≤ k := by
        rw [List.length_mergeSort]
        exact le_trans hlen_rs hkk
      rw [List.take_of_length_le hlen2]
      exact ⟨_, hmem2, rfl, rfl⟩

/-- Witness for C10 at concrete inputs: the zero vector scores `NaN` against
itself, the unit vector scores `1` against itself, and a store holding the
zero vector puts a `NaN` score into the search results. -/
theorem cosineSimilarity_nan_unguarded_witness :
    cosineSimilarity [(0 : ℚ)] [(0 : ℚ)] = .ok none ∧
    (cosineSimilarity [(1 : ℚ)] [(1 : ℚ)] =
        .ok (some ⟨sumSq [(1 : ℚ)], sumSq [(1 : ℚ)] * sumSq [(1 : ℚ)]⟩) ∧
      scoreValR ⟨sumSq [(1 : ℚ)], sumSq [(1 : ℚ)] * sumSq [(1 : ℚ)]⟩ = 1) ∧
    (∃ res, searchByText cItems true "q" cRemoteOk 10 = .ok res ∧
      ∃ r ∈ res, r.id = "z" ∧ r.score = none) :=
  ⟨cosineSimilarity_nan_unguarded.1 [0] [0] rfl (Or.inl (by simp [sumSq])),
   cosineSimilarity_nan_unguarded.2.1 [1] (by norm_num [sumSq]),
   cosineSimilarity_nan_unguarded.2.2 cItems true "q" cRemoteOk 10 [1] "z" itemZ
     [0] (by rfl) (by decide) (by rfl) (by simp [sumSq]) (by decide) (by decide)⟩

/-! ## Claim C3: hybrid merge gives semantic hits priority -/

section MapLemmas

variable {β : Type}

/-- Absent key: no entry of the map matches it. -/
theorem jsMapHas_eq_false_iff (m : List (String × β)) (k : String) :
    jsMapHas m k = false ↔ ∀ p ∈ m, p.1 ≠ k := by
  simp [jsMapHas]

/-- Absent key means the key-filter is empty, and conversely. -/
theorem jsMapHas_eq_false_iff_filter (m : List (String × β)) (k : String) :
    jsMapHas m k = false ↔ m.filter (fun p => decide (p.1 = k)) = [] := by
  rw [jsMapHas_eq_false_iff, List.filter_eq_nil]
  simp

/-- Replacing the value at one key does not change the entries of another. -/
theorem filter_key_map_set (m : List (String × β)) (k id : String) (v : β)
    (h : k ≠ id) :
    (m.map (fun p => if p.1 = k then (k, v) else p)).filter
        (fun p => decide (p.1 = id)) =
      m.filter (fun p => decide (p.1 = id)) := by
  induction m with
  | nil => rfl
  | cons q rest ih =>
      simp only [List.map_cons, List.filter_cons]
      by_cases hq : q.1 = k
      · rw [if_pos hq]
        have h1 : decide (((k, v) : String × β).1 = id) = false := by simp [h]
        have h2 : decide (q.1 = id) = false := by simp [hq, h]
        rw [h1, h2]
        simpa using ih
      · rw [if_neg hq]
        by_cases hid : q.1 = id <;> simp [hid, ih]

/-- `set` at one key does not change the entries of another key. -/
theorem jsMapSet_filter_other (m : List (String × β)) (k id : String) (v : β)
    (h : k ≠ id) :
    (jsMapSet m k v).filter (fun p => decide (p.1 = id)) =
      m.filter (fun p => decide (p.1 = id)) := by
  unfold jsMapSet
  split
  · exact filter_key_map_set m k id v h
  · rw [List.filter_append]
    simp [h]

/-- `set` of a fresh key makes its filter the freshly appended entry. -/
theorem jsMapSet_filter_new (m : List (String × β)) (k : String) (v : β)
    (h : jsMapHas m k = false) :
    (jsMapSet m k v).filter (fun p => decide (p.1 = k)) = [(k, v)] := by
  unfold jsMapSet
  rw [if_neg (by simp [h]), List.filter_append,
    (jsMapHas_eq_false_iff_filter m k).mp h]
  simp

/-- A nonempty key-filter means the key is present. -/
theorem jsMapHas_of_filter (m : List (String × β)) (k : String)
    (x : String × β) (h : m.filter (fun p => decide (p.1 = k)) = [x]) :
    jsMapHas m k = true := by
  by_contra hfalse
  have h0 : jsMapHas m k = false := by
    cases hhk : jsMapHas m k
    · rfl
    · exact absurd hhk hfalse
  rw [(jsMapHas_eq_false_iff_filter m k).mp h0] at h
  cases h

end MapLemmas

/-- The semantic fold never touches keys that none of its results carries. -/
theorem semFold_filter_preserved (db : DbView) (l : List SearchResult)
    (id : String) (h : ∀ r ∈ l, r.id ≠ id) :
    ∀ m : List (String × MergedEntry),
      (l.foldl (semStep db) m).filter (fun p => decide (p.1 = id)) =
        m.filter (fun p => decide (p.1 = id)) := by
  induction l with
  | nil => intro m; rfl
  | cons r rest ih =>
      intro m
      have hr : r.id ≠ id := h r (List.mem_cons_self _ _)
      have hrest : ∀ q ∈ rest, q.id ≠ id :=
        fun q hq => h q (List.mem_cons_of_mem _ hq)
      rw [List.foldl_cons, ih hrest (semStep db m r)]
      unfold semStep
      rcases hcase : db.getScreenshot r.id with _ | s
      · rfl
      · exact jsMapSet_filter_other m r.id id _ hr

/-- After the semantic fold, a semantic hit with a live screenshot row and a
unique id owns exactly one entry of the map: the semantic entry carrying its
score. -/
theorem semFold_filter_singleton (db : DbView) (r : SearchResult)
    (s : ScreenshotR) (hs : db.getScreenshot r.id = some s) :
    ∀ l : List SearchResult, r ∈ l → (l.map (·.id)).Nodup →
    ∀ m : List (String × MergedEntry),
      jsMapHas m r.id = false →
      (l.foldl (semStep db) m).filter (fun p => decide (p.1 = r.id)) =
        [(r.id, .semantic s (db.getMetadata r.id) (db.getTags r.id)
            (db.getFolders r.id) r.score)] := by
  intro l
  induction l with
  | nil => intro hr; cases hr
  | cons hd rest ih =>
      intro hr hnodup m hhas
      rw [List.foldl_cons]
      rcases List.mem_cons.mp hr with heq | hr2
      · subst heq
        have hstep : semStep db m r =
            jsMapSet m r.id (.semantic s (db.getMetadata r.id)
              (db.getTags r.id) (db.getFolders r.id) r.score) := by
          unfold semStep
          rw [hs]
        have hrest : ∀ q ∈ rest, q.id ≠ r.id := by
          simp only [List.map_cons, List.nodup_cons] at hnodup
          intro q hq heq2
          exact hnodup.1 (heq2 ▸ List.mem_map_of_mem _ hq)
        rw [hstep, semFold_filter_preserved db rest r.id hrest]
        exact jsMapSet_filter_new m r.id _ hhas
      · have hne : hd.id ≠ r.id := by
          simp only [List.map_cons, List.nodup_cons] at hnodup
          intro heq
          exact hnodup.1 (heq ▸ List.mem_map_of_mem _ hr2)
        have hnodup2 : (rest.map (·.id)).Nodup := by
          simp only [List.map_cons, List.nodup_cons] at hnodup
          exact hnodup.2
        have hhas2 : jsMapHas (semStep db m hd) r.id = false := by
          rw [jsMapHas_eq_false_iff_filter]
          unfold semStep
          rcases hcase : db.getScreenshot hd.id with _ | s2
          · exact (jsMapHas_eq_false_iff_filter m r.id).mp hhas
          · exact (jsMapSet_filter_other m hd.id r.id _ hne).trans
              ((jsMapHas_eq_false_iff_filter m r.id).mp hhas)
        exact ih hr2 hnodup2 (semStep db m hd) hhas2

/-- The lexical fold never replaces an existing entry. -/
theorem lexFold_filter_preserved (l : List TextSearchRow) (id : String)
    (x : String × MergedEntry) :
    ∀ m, m.filter (fun p => decide (p.1 = id)) = [x] →
      (l.foldl lexStep m).filter (fun p => decide (p.1 = id)) = [x] := by
  induction l with
  | nil => intro m hm; exact hm
  | cons t rest ih =>
      intro m hm
      rw [List.foldl_cons]
      apply ih
      unfold lexStep
      by_cases hhas : jsMapHas m t.screenshot.id = true
      · rw [if_pos hhas]
        exact hm
      · rw [if_neg hhas]
        by_cases hid : t.screenshot.id = id
        · exact absurd (hid ▸ jsMapHas_of_filter m id x hm) hhas
        · rw [jsMapSet_filter_other m t.screenshot.id id _ hid]
          exact hm

/-- Present keys stay present across one lexical step. -/
theorem lexStep_has_mono (m : List (String × MergedEntry)) (t : TextSearchRow)
    (k : String) (h : jsMapHas m k = true) :
    jsMapHas (lexStep m t) k = true := by
  unfold lexStep
  split
  · exact h
  · unfold jsMapSet
    split
    · simp only [jsMapHas, List.any_eq_true] at h ⊢
      obtain ⟨p, hp, hpk⟩ := h
      refine ⟨if p.1 = t.screenshot.id then (t.screenshot.id, .lexical t) else p,
        List.mem_map_of_mem _ hp, ?_⟩
      by_cases hpt : p.1 = t.screenshot.id
      · rw [if_pos hpt]
        simp only [decide_eq_true_eq] at hpk ⊢
        rw [← hpt, hpk]
      · rw [if_neg hpt]
        exact hpk
    · simp only [jsMapHas, List.any_append, Bool.or_eq_true]
      exact Or.inl h

/-- Provenance of the entries of the lexical fold: either an entry of the
starting map, or a lexical row whose id was absent when the fold began. -/
theorem lexFold_mem (l : List TextSearchRow) :
    ∀ m, ∀ p ∈ l.foldl lexStep m,
      p ∈ m ∨ (jsMapHas m p.1 = false ∧
        ∃ t ∈ l, p = (t.screenshot.id, MergedEntry.lexical t)) := by
  induction l with
  | nil => intro m p hp; exact Or.inl hp
  | cons t rest ih =>
      intro m p hp
      rw [List.foldl_cons] at hp
      rcases ih (lexStep m t) p hp with h1 | ⟨hhas, t2, ht2, rfl⟩
      · unfold lexStep at h1
        by_cases hhas : jsMapHas m t.screenshot.id = true
        · rw [if_pos hhas] at h1
          exact Or.inl h1
        · rw [if_neg hhas] at h1
          unfold jsMapSet at h1
          rw [if_neg hhas] at h1
          rcases List.mem_append.mp h1 with h2 | h2
          · exact Or.inl h2
          · simp only [List.mem_singleton] at h2
            subst h2
            have hhasf : jsMapHas m t.screenshot.id = false := by
              cases hc : jsMapHas m t.screenshot.id
              · rfl
              · exact absurd hc hhas
            exact Or.inr ⟨hhasf, t, List.mem_cons_self _ _, rfl⟩
      · refine Or.inr ⟨?_, t2, List.mem_cons_of_mem _ ht2, rfl⟩
        cases hc : jsMapHas m (t2.screenshot.id)
        · rfl
        · exact absurd (lexStep_has_mono m t _ hc) (by simp [hhas])

/-- C3: in the hybrid merge, (i) the output is the result map truncated to at
most `limit` entries; (ii) a semantic hit whose screenshot row exists owns
exactly one entry of the result map — the semantic entry carrying the cosine
similarity as relevance score — whether or not a lexical hit shares its id;
(iii) every other entry is a lexical row whose id was not claimed by the
semantic phase. -/
theorem hybridMerge_semantic_priority (db : DbView) (semR : List SearchResult)
    (lexR : List TextSearchRow) (limit : ℕ)
    (hnodup : (semR.map (·.id)).Nodup) :
    (searchScreenshotsMerge db semR lexR limit).length ≤ limit ∧
    (∀ r ∈ semR, ∀ s, db.getScreenshot r.id = some s →
      (lexPhase (semPhase db semR) lexR).filter (fun p => decide (p.1 = r.id)) =
        [(r.id, .semantic s (db.getMetadata r.id) (db.getTags r.id)
            (db.getFolders r.id) r.score)]) ∧
    (∀ p ∈ lexPhase (semPhase db semR) lexR,
      p ∈ semPhase db semR ∨
      (jsMapHas (semPhase db semR) p.1 = false ∧
        ∃ t ∈ lexR, p = (t.screenshot.id, MergedEntry.lexical t))) := by
  refine ⟨?_, ?_, ?_⟩
  · unfold searchScreenshotsMerge
    simp [List.length_take_le]
  · intro r hr s hs
    unfold lexPhase semPhase
    exact lexFold_filter_preserved lexR r.id _ _
      (semFold_filter_singleton db r s hs semR hr hnodup [] rfl)
  · intro p hp
    exact lexFold_mem lexR (semPhase db semR) p hp

/-- Witness for C3 at the concrete one-hit-each inputs sharing id `"g"`. -/
theorem hybridMerge_semantic_priority_witness :
    (searchScreenshotsMerge cDb cSemR cLexR 5).length ≤ 5 ∧
    (lexPhase (semPhase cDb cSemR) cLexR).filter (fun p => decide (p.1 = "g")) =
      [("g", .semantic cSsG (cDb.getMetadata "g") (cDb.getTags "g")
          (cDb.getFolders "g") (some ⟨1, 1⟩))] :=
  ⟨(hybridMerge_semantic_priority cDb cSemR cLexR 5 (by decide)).1,
   (hybridMerge_semantic_priority cDb cSemR cLexR 5 (by decide)).2.1
     ⟨"g", some ⟨1, 1⟩, itemG⟩ (List.mem_cons_self _ _) cSsG (by rfl)⟩

/-! ## Claim C1: top-k and descending order of searchByText -/

/-- Counterexample to C1 as stated: with the zero vector stored (insertion
order: zero vector first), `searchByText` succeeds and returns a result list
whose first entry carries a `NaN` score — the list is not sorted in
descending order of cosine-similarity score, since `NaN` compares below
nothing. -/
theorem searchByText_not_sorted_cex :
    searchByText cItems true "q" cRemoteOk 10 =
      .ok [⟨"z", none, itemZ⟩, ⟨"g", some ⟨1, 1⟩, itemG⟩] ∧
    ¬ ([(⟨"z", none, itemZ⟩ : SearchResult), ⟨"g", some ⟨1, 1⟩, itemG⟩].Pairwise
        (fun a b => scoreGe a.score b.score)) := by
  constructor
  · unfold searchByText
    rw [if_neg (by decide)]
    rw [show createEmbedding true "q" cRemoteOk = .ok [1] from rfl]
    dsimp only
    have hz : cosineSimilarity [(1 : ℚ)] [(0 : ℚ)] = .ok none := by
      rw [cosineSimilarity_eq _ _ (by rfl)]
      norm_num [sumSq]
    have hg : cosineSimilarity [(1 : ℚ)] [(1 : ℚ)] = .ok (some ⟨1, 1⟩) := by
      rw [cosineSimilarity_eq _ _ (by rfl)]
      norm_num [sumSq, dotProd]
    have hcol : collectScores [1] cItems =
        .ok [⟨"z", none, itemZ⟩, ⟨"g", some ⟨1, 1⟩, itemG⟩] := by
      simp [collectScores, cItems, itemZ, itemG, hz, hg]
    rw [hcol]
    dsimp only
    rw [List.mergeSort_of_sorted (by decide)]
    rfl
  · intro h
    have h1 := (List.pairwise_cons.mp h).1 ⟨"g", some ⟨1, 1⟩, itemG⟩ (by simp)
    simp [scoreGe] at h1

/-- C1 (amended): `searchByText` always returns at most `k` entries; and
whenever no score is `NaN` — i.e. the query embedding and all stored
embeddings have nonzero norm and matching length — the entries are sorted in
descending order of their cosine-similarity score against the embedded query,
each entry's score being that cosine similarity.  (The counterexample shows
the ordering clause fails once a `NaN` score appears.) -/
theorem searchByText_topk_sorted :
    (∀ (items : EmbMap) (hk : Bool) (q : String)
        (rm : String → Except String (List ℚ)) (k : ℕ) (res : List SearchResult),
      searchByText items hk q rm k = .ok res → res.length ≤ k) ∧
    (∀ (items : EmbMap) (hk : Bool) (q : String)
        (rm : String → Except String (List ℚ)) (k : ℕ) (qe : List ℚ)
        (res : List SearchResult),
      createEmbedding hk q rm = .ok qe →
      sumSq qe ≠ 0 →
      (∀ p ∈ items, ∀ e, p.2.embedding = some e →
        e.length = qe.length ∧ sumSq e ≠ 0) →
      searchByText items hk q rm k = .ok res →
      res.Pairwise (fun a b => scoreGe a.score b.score) ∧
      (∀ r ∈ res, ∃ p ∈ items, p.2 = r.item ∧ ∃ e, r.item.embedding = some e ∧
        cosineSimilarity qe e = .ok r.score)) := by
  constructor
  · intro items hk q rm k res h
    unfold searchByText at h
    split at h
    · simp only [Except.ok.injEq] at h
      subst h
      simp
    · split at h
      · simp only [Except.ok.injEq] at h
        subst h
        simp
      · split at h
        · simp only [Except.ok.injEq] at h
          subst h
          simp
        · simp only [Except.ok.injEq] at h
          subst h
          exact List.length_take_le k _
  · intro items hk q rm k qe res hemb hq hitems hsearch
    by_cases hni : items = []
    · subst hni
      unfold searchByText at hsearch
      rw [if_pos rfl] at hsearch
      simp only [Except.ok.injEq] at hsearch
      subst hsearch
      exact ⟨List.Pairwise.nil, by simp⟩
    · unfold searchByText at hsearch
      rw [if_neg hni, hemb] at hsearch
      dsimp only at hsearch
      obtain ⟨rs, hrs, _, _, hchar⟩ :=
        collectScores_ok qe items (fun p hp e he => (hitems p hp e he).1)
      rw [hrs] at hsearch
      dsimp only at hsearch
      simp only [Except.ok.injEq] at hsearch
      subst hsearch
      have hgood : ∀ r ∈ rs, ∃ v, r.score = some v ∧ 0 < v.den2 := by
        intro r hr
        obtain ⟨p, hp, hpe, e, he, hcos⟩ := hchar r hr
        have hx : p.2.embedding = some e := by rw [hpe]; exact he
        obtain ⟨hlen, hnz⟩ := hitems p hp e hx
        have hprod : sumSq qe * sumSq e ≠ 0 := mul_ne_zero hq hnz
        rw [cosineSimilarity_eq qe e hlen.symm, if_neg hprod] at hcos
        simp only [Except.ok.injEq] at hcos
        refine ⟨⟨dotProd qe e, sumSq qe * sumSq e⟩, hcos.symm, ?_⟩
        exact lt_of_le_of_ne
          (mul_nonneg (sumSq_nonneg qe) (sumSq_nonneg e)) (Ne.symm hprod)
      have hagree : ∀ a ∈ rs, ∀ b ∈ rs, jsCompareKeep a b = srKeep a b := by
        intro a ha b hb
        obtain ⟨va, hva, _⟩ := hgood a ha
        obtain ⟨vb, hvb, _⟩ := hgood b hb
        simp [jsCompareKeep, srKeep, srKey, scoreLE, hva, hvb]
      have hcong : rs.mergeSort jsCompareKeep = rs.mergeSort srKeep := by
        have hmap := List.map_mergeSort (f := id) (l := rs)
          (r := jsCompareKeep) (s := srKeep)
          (fun a ha b hb => by simpa using hagree a ha b hb)
        simpa using hmap
      have hsorted : (rs.mergeSort srKeep).Pairwise
          (fun a b => srKeep a b = true) := by
        apply List.sorted_mergeSort
        · intro a b c hab hbc
          simp only [srKeep, decide_eq_true_eq] at hab hbc ⊢
          exact le_trans hbc hab
        · intro a b
          simp only [srKeep, Bool.or_eq_true, decide_eq_true_eq]
          exact le_total _ _
      rw [← hcong] at hsorted
      have hsub : List.Sublist ((rs.mergeSort jsCompareKeep).take k)
          (rs.mergeSort jsCompareKeep) :=
        List.take_sublist k _
      have hsorted2 := hsorted.sublist hsub
      constructor
      · refine List.Pairwise.imp_of_mem ?_ hsorted2
        intro a b ha hb hab
        have ha2 : a ∈ rs := List.mem_mergeSort.mp (hsub.subset ha)
        have hb2 : b ∈ rs := List.mem_mergeSort.mp (hsub.subset hb)
        obtain ⟨va, hva, hda⟩ := hgood a ha2
        obtain ⟨vb, hvb, hdb⟩ := hgood b hb2
        refine ⟨va, vb, hva, hvb, ?_⟩
        simp only [srKeep, decide_eq_true_eq, srKey, hva, hvb] at hab
        exact (scoreKey_le_iff_real hdb hda).mp hab
      · intro r hr
        exact hchar r (List.mem_mergeSort.mp (hsub.subset hr))

/-- Witness for C1 (amended) on a concrete one-item store with nonzero
vectors: one result, trivially within the limit and sorted. -/
theorem searchByText_topk_sorted_witness :
    ([(⟨"g", some ⟨1, 1⟩, itemG⟩ : SearchResult)].length ≤ 3) ∧
    ([(⟨"g", some ⟨1, 1⟩, itemG⟩ : SearchResult)].Pairwise
        (fun a b => scoreGe a.score b.score)) := by
  have hg : cosineSimilarity [(1 : ℚ)] [(1 : ℚ)] = .ok (some ⟨1, 1⟩) := by
    rw [cosineSimilarity_eq _ _ (by rfl)]
    norm_num [sumSq, dotProd]
  have hs : searchByText [("g", itemG)] true "q" cRemoteOk 3 =
      .ok [⟨"g", some ⟨1, 1⟩, itemG⟩] := by
    unfold searchByText
    rw [if_neg (by decide)]
    rw [show createEmbedding true "q" cRemoteOk = .ok [1] from rfl]
    dsimp only
    have hcol : collectScores [1] [("g", itemG)] =
        .ok [⟨"g", some ⟨1, 1⟩, itemG⟩] := by
      simp [collectScores, itemG, hg]
    rw [hcol]
    dsimp only
    rw [List.mergeSort_singleton]
    rfl
  refine ⟨searchByText_topk_sorted.1 _ _ _ _ _ _ hs, ?_⟩
  refine (searchByText_topk_sorted.2 [("g", itemG)] true "q" cRemoteOk 3 [1] _
    rfl (by norm_num [sumSq]) ?_ hs).1
  intro p hp e he
  simp only [List.mem_singleton] at hp
  subst hp
  simp only [itemG] at he
  cases he
  exact ⟨rfl, by norm_num [sumSq]⟩

end ScreenshotRenderer
